import Mathlib

/-!
Verification of the grm configuration storage engine (package `config` and the
encryption helpers in `grm/main.go`) against its specification.

Go strings are modelled as `List Char`; Go byte slices as `List Nat` with
entries below 256. The goini INI store (a `map[string]Kvmap`) is modelled as an
association list with map semantics. `log.Fatal` and runtime panics are
modelled by `Except.error`.
-/

deriving instance DecidableEq for Except

namespace Grm

/-- Go strings, modelled as lists of characters. -/
abbrev Str := List Char

/-- Convenience conversion from a Lean string literal to the `Str` model. -/
def str (s : String) : Str := s.data

/-- Model of Go `strings.HasPrefix s pre`. -/
def strHasPrefix : Str → Str → Bool
  | _, [] => true
  | [], _ :: _ => false
  | c :: s, p :: ps => if c = p then strHasPrefix s ps else false

/-- Fuel-indexed worker for `strSplit`. `acc` holds the current token reversed.
The fuel always suffices because every step consumes at least one character of
the input (the separators used by the program are non-empty). -/
def strSplitAux (sep : Str) : Nat → Str → Str → List Str
  | _, [], acc => [acc.reverse]
  | 0, s, acc => [acc.reverse ++ s]
  | fuel + 1, c :: rest, acc =>
    if strHasPrefix (c :: rest) sep then
      acc.reverse :: strSplitAux sep fuel (List.drop sep.length (c :: rest)) []
    else
      strSplitAux sep fuel rest (c :: acc)

/-- Model of Go `strings.Split s sep` for a non-empty separator: the list of
substrings of `s` between consecutive occurrences of `sep`. -/
def strSplit (sep s : Str) : List Str := strSplitAux sep (s.length + 1) s []

/-- Model of Go `strings.Contains s " "`: for a single-character pattern,
substring containment coincides with character membership. -/
def strContainsSpace (s : Str) : Bool := s.contains ' '

/-- Model of the `Section` interface together with its sole implementation
`section{string; bool}`: a header template and the named flag. -/
structure Section where
  name : Str
  named : Bool
deriving DecidableEq

/-- Model of the `Key` interface together with its implementation
`key{string, overloadable, exportable}`. -/
structure Key where
  name : Str
  overloadable : Bool
  exportable : Bool
deriving DecidableEq

/-- The `Remote` section: named, with header template `Remote "%s"`. -/
def Remote : Section := ⟨str "Remote \"%s\"", true⟩

/-- The `username` key: not overloadable, not exportable. -/
def Username : Key := ⟨str "username", false, false⟩

/-- The `password` key: not overloadable, not exportable. -/
def Password : Key := ⟨str "password", false, false⟩

/-- The `salt` key: not overloadable, not exportable. -/
def Salt : Key := ⟨str "salt", false, false⟩

/-- The `user` key: not overloadable, exportable. -/
def RemoteUser : Key := ⟨str "user", false, true⟩

/-- The `show-private` key: not overloadable, exportable. -/
def ShowPrivate : Key := ⟨str "show-private", false, true⟩

/-- The `repository-pattern` key: not overloadable, exportable. -/
def RepositoryPattern : Key := ⟨str "repository-pattern", false, true⟩

/-- The `release-pattern` key: overloadable, exportable. -/
def ReleasePattern : Key := ⟨str "release-pattern", true, true⟩

/-- The `milestone-pattern` key: overloadable, exportable. -/
def MilestonePattern : Key := ⟨str "milestone-pattern", true, true⟩

/-- The `repository-blacklisted` key: overloadable, exportable. -/
def RepositoryBlacklisted : Key := ⟨str "repository-blacklisted", true, true⟩

/-- The `download-url` key: overloadable, exportable. -/
def DownloadUrl : Key := ⟨str "download-url", true, true⟩

/-- The `sectionLookup` map: template name to Section. -/
def sectionLookupTable (s : Str) : Option Section :=
  if s = str "Remote" then some Remote else none

/-- The `keyLookup` map: key name to Key. -/
def keyLookupTable (n : Str) : Option Key :=
  if n = Username.name then some Username
  else if n = Password.name then some Password
  else if n = Salt.name then some Salt
  else if n = RemoteUser.name then some RemoteUser
  else if n = ShowPrivate.name then some ShowPrivate
  else if n = RepositoryPattern.name then some RepositoryPattern
  else if n = ReleasePattern.name then some ReleasePattern
  else if n = MilestonePattern.name then some MilestonePattern
  else if n = RepositoryBlacklisted.name then some RepositoryBlacklisted
  else if n = DownloadUrl.name then some DownloadUrl
  else none

/-- `KeyLookup`: split the raw key at `:` and look up the base token. A lookup
miss is the nil interface value, modelled by `none`. -/
def KeyLookup (k : Str) : Option Key :=
  match strSplit (str ":") k with
  | t :: _ => keyLookupTable t
  | [] => none

/-- `SectionLookup`: headers without a space are looked up directly, otherwise
the part before ` "` is the template name. -/
def SectionLookup (sec : Str) : Option Section :=
  if strContainsSpace sec = false then sectionLookupTable sec
  else
    match strSplit (str " \"") sec with
    | t :: _ => sectionLookupTable t
    | [] => none

/-- `buildSectionName`: `fmt.Sprintf(section.Name(), name)`; every template in
the registry contains exactly one `%s` verb, so the substitution is modelled by
interspersing the instance name between the pieces of the template around
`%s`. -/
def buildSectionName (s : Section) (name : Str) : Str :=
  List.intercalate name (strSplit (str "%s") s.name)

/-- `buildOverloadedKey`: `fmt.Sprintf("%s:%s", key.Name(), specifier)`. -/
def buildOverloadedKey (k : Key) (specifier : Str) : Str :=
  k.name ++ ':' :: specifier

/-- A goini `Kvmap` (`map[string]string`), modelled as an association list with
unique keys; lookup takes the first binding. -/
abbrev Kvmap := List (Str × Str)

/-- The goini section table (`map[string]Kvmap`). -/
abbrev Ini := List (Str × Kvmap)

/-- Lookup in a `Kvmap` (Go map indexing; the boolean of the comma-ok form is
`Option.isSome`). -/
def kvGet : Kvmap → Str → Option Str
  | [], _ => none
  | (k', v) :: rest, k => if k' = k then some v else kvGet rest k

/-- Go map assignment `m[k] = v`: replace the binding of `k` or add one. -/
def kvSet : Kvmap → Str → Str → Kvmap
  | [], k, v => [(k, v)]
  | (k', v') :: rest, k, v =>
    if k' = k then (k, v) :: rest else (k', v') :: kvSet rest k v

/-- Go `delete(m, k)`: drop the binding of `k`. -/
def kvDelete : Kvmap → Str → Kvmap
  | [], _ => []
  | (k', v') :: rest, k => if k' = k then rest else (k', v') :: kvDelete rest k

/-- goini `GetKvmap(section)`. -/
def iniGetKvmap : Ini → Str → Option Kvmap
  | [], _ => none
  | (s', m) :: rest, s => if s' = s then some m else iniGetKvmap rest s

/-- goini `SectionGet(section, key)`: `(value, true)` is `some value`, the
`("", false)` miss is `none`. -/
def iniSectionGet (i : Ini) (sec k : Str) : Option Str :=
  match iniGetKvmap i sec with
  | some m => kvGet m k
  | none => none

/-- goini `SectionSet(section, key, value)`: creates the section on demand. -/
def iniSectionSet : Ini → Str → Str → Str → Ini
  | [], sec, k, v => [(sec, [(k, v)])]
  | (s', m) :: rest, sec, k, v =>
    if s' = sec then (sec, kvSet m k v) :: rest
    else (s', m) :: iniSectionSet rest sec k v

/-- goini `Delete(section, key)`: removes the key if the section exists. -/
def iniDeleteKey : Ini → Str → Str → Ini
  | [], _, _ => []
  | (s', m) :: rest, sec, k =>
    if s' = sec then (s', kvDelete m k) :: rest
    else (s', m) :: iniDeleteKey rest sec k

/-- Go `delete(sectionMap, name)` on the map returned by `GetAll()`, which
aliases the store: removes a whole section. -/
def iniDeleteSection : Ini → Str → Ini
  | [], _ => []
  | (s', m) :: rest, sec =>
    if s' = sec then rest else (s', m) :: iniDeleteSection rest sec

/-- The `configuration` struct. `ini` is a `*goini.INI` pointer, `none` when
the pointer is nil (config file absent at load). The `homeDir` field only
feeds the fixed file path and is not part of the model. -/
structure Configuration where
  ini : Option Ini
deriving DecidableEq

/-- The diagnostic of the Go runtime when a goini method is invoked on the nil
pointer held by a `configuration` loaded without a config file. -/
def nilDeref : String := "runtime error: invalid memory address or nil pointer dereference"

/-- `NewConfiguration(homeDir)`: the file system is presented as the parsed
content of `<home>/github-release-monitor/config` (`none` when the file does
not exist; an unreadable file is a `log.Fatal` outside this model). When the
file is absent the function returns with the `ini` pointer still nil. -/
def NewConfiguration (file : Option Ini) : Configuration := ⟨file⟩

/-- The private `sectionGet` helper: for an overloadable key and a non-empty
specifier, probe `key:specifier` first, then fall back to the bare key. -/
def sectionGet (i : Ini) (sec : Str) (k : Key) (specifier : Str) : Option Str :=
  if k.overloadable = true ∧ specifier ≠ [] then
    match iniSectionGet i sec (buildOverloadedKey k specifier) with
    | some v => some v
    | none => iniSectionGet i sec k.name
  else iniSectionGet i sec k.name

/-- The `Section` accessor method (named `Section` in Go; renamed here because
`Section` is the type): returns a copy of the raw kvmap, or an empty map. -/
def SectionMap (c : Configuration) (s : Section) : Except String Kvmap :=
  if s.named then .error "Tried to retrieve a named section without a name"
  else
    match c.ini with
    | none => .error nilDeref
    | some i =>
      match iniGetKvmap i s.name with
      | some m => .ok m
      | none => .ok []

/-- `SectionGet(section, key, specifier)`. -/
def SectionGet (c : Configuration) (s : Section) (k : Key) (specifier : Str) :
    Except String (Option Str) :=
  if s.named then .error "Tried to retrieve a named section without a name"
  else
    match c.ini with
    | none => .error nilDeref
    | some i => .ok (sectionGet i s.name k specifier)

/-- `SectionGetOverrides(section, key)`: the entries of the raw kvmap whose
stored key starts with `key.Name() ++ ":"`, kept under their stored key. -/
def SectionGetOverrides (c : Configuration) (s : Section) (k : Key) :
    Except String Kvmap :=
  if s.named then .error "Tried to retrieve a named section without a name"
  else
    match c.ini with
    | none => .error nilDeref
    | some i =>
      match iniGetKvmap i s.name with
      | some m => .ok (m.filter (fun kv => strHasPrefix kv.1 (k.name ++ [':'])))
      | none => .ok []

/-- `NamedSections(section)`: iterate the headers of `GetAll()` and keep those
whose `SectionLookup` equals the given section (iteration order of the Go map
is arbitrary; the model uses list order). -/
def NamedSections (c : Configuration) (s : Section) : Except String (List Str) :=
  match c.ini with
  | none => .error nilDeref
  | some i => .ok ((i.map Prod.fst).filter (fun h => decide (SectionLookup h = some s)))

/-- `NamedSection(name, section)`. -/
def NamedSection (c : Configuration) (name : Str) (s : Section) :
    Except String Kvmap :=
  if s.named = false then .error "Tried to retrieve a non-named section with a name"
  else
    match c.ini with
    | none => .error nilDeref
    | some i =>
      match iniGetKvmap i (buildSectionName s name) with
      | some m => .ok m
      | none => .ok []

/-- `NamedSectionGet(name, section, key, specifier)`. -/
def NamedSectionGet (c : Configuration) (name : Str) (s : Section) (k : Key)
    (specifier : Str) : Except String (Option Str) :=
  if s.named = false then .error "Tried to retrieve a non-named section with a name"
  else
    match c.ini with
    | none => .error nilDeref
    | some i => .ok (sectionGet i (buildSectionName s name) k specifier)

/-- `NamedSectionGetOverrides(name, section, key)`. -/
def NamedSectionGetOverrides (c : Configuration) (name : Str) (s : Section)
    (k : Key) : Except String Kvmap :=
  if s.named = false then .error "Tried to retrieve a non-named section with a name"
  else
    match c.ini with
    | none => .error nilDeref
    | some i =>
      match iniGetKvmap i (buildSectionName s name) with
      | some m => .ok (m.filter (fun kv => strHasPrefix kv.1 (k.name ++ [':'])))
      | none => .ok []

/-- The effective key written by the mutator methods: the bare key name, or
`key:specifier` when a specifier is supplied. -/
def effectiveKey (k : Key) (specifier : Str) : Str :=
  if specifier = [] then k.name else buildOverloadedKey k specifier

/-- One call on the `Mutator` interface inside an `ApplyChanges` batch. -/
inductive Edit where
  | delete (s : Section)
  | sectionSet (s : Section) (k : Key) (specifier value : Str)
  | sectionDelete (s : Section) (k : Key) (specifier : Str)
  | namedDelete (name : Str) (s : Section)
  | namedSectionSet (name : Str) (s : Section) (k : Key) (specifier value : Str)
  | namedSectionDelete (name : Str) (s : Section) (k : Key) (specifier : Str)

/-- Apply one mutator call to the in-memory store; the named/unnamed guards
`log.Fatal` exactly as the corresponding methods do. -/
def applyEdit (i : Ini) : Edit → Except String Ini
  | .delete s =>
    if s.named then .error "Tried to delete a named section without a name"
    else .ok (iniDeleteSection i s.name)
  | .sectionSet s k sp v =>
    if s.named then .error "Tried to retrieve a named section without a name"
    else .ok (iniSectionSet i s.name (effectiveKey k sp) v)
  | .sectionDelete s k sp =>
    if s.named then .error "Tried to retrieve a named section without a name"
    else .ok (iniDeleteKey i s.name (effectiveKey k sp))
  | .namedDelete name s =>
    if s.named = false then .error "Tried to delete a non-named section with a name"
    else .ok (iniDeleteSection i (buildSectionName s name))
  | .namedSectionSet name s k sp v =>
    if s.named = false then .error "Tried to retrieve a non-named section with a name"
    else .ok (iniSectionSet i (buildSectionName s name) (effectiveKey k sp) v)
  | .namedSectionDelete name s k sp =>
    if s.named = false then .error "Tried to retrieve a non-named section with a name"
    else .ok (iniDeleteKey i (buildSectionName s name) (effectiveKey k sp))

/-- The caller-supplied batch, run edit after edit. -/
def applyEdits (i : Ini) : List Edit → Except String Ini
  | [] => .ok i
  | e :: rest =>
    match applyEdit i e with
    | .error m => .error m
    | .ok i' => applyEdits i' rest

/-- The process-visible state: the in-memory configuration, the persisted file
(`none` when absent) and a count of config-file writes. -/
structure World where
  config : Configuration
  file : Option Ini
  writes : Nat
deriving DecidableEq

/-- The private `store` method: a nil ini writes nothing, otherwise the whole
store is serialized to the config file in one write (directory creation and
`os.Create` failures are `log.Fatal` paths outside this model; goini
`Write`/`ParseFile` are taken as a faithful round trip, so the file holds the
section table itself). -/
def store (w : World) : World :=
  match w.config.ini with
  | none => w
  | some i => { w with file := some i, writes := w.writes + 1 }

/-- `ApplyChanges(applyFunction)`: initialize the ini if nil, run the batch,
persist once. -/
def ApplyChanges (w : World) (edits : List Edit) : Except String World :=
  match applyEdits (w.config.ini.getD []) edits with
  | .error m => .error m
  | .ok i' => .ok (store { w with config := ⟨some i'⟩ })

/-- Whether one mutator call writes or deletes the entry of section `sec` and
effective key `ek` (or deletes the whole section `sec`): the edits that can
disturb that persisted entry. -/
def touches (sec ek : Str) : Edit → Bool
  | .delete s => s.name == sec
  | .sectionSet s k sp _ => s.name == sec && effectiveKey k sp == ek
  | .sectionDelete s k sp => s.name == sec && effectiveKey k sp == ek
  | .namedDelete name s => buildSectionName s name == sec
  | .namedSectionSet name s k sp _ =>
    buildSectionName s name == sec && effectiveKey k sp == ek
  | .namedSectionDelete name s k sp =>
    buildSectionName s name == sec && effectiveKey k sp == ek

/-- The standard base64 alphabet of `encoding/base64.StdEncoding`. -/
def alphabet : List Char :=
  str "ABCDEFGHIJKLMNOPQRSTUVWXYZabcdefghijklmnopqrstuvwxyz0123456789+/"

/-- Character of a six-bit group. -/
def b64Char (n : Nat) : Char := alphabet.getD n 'A'

/-- Index of a character in a character list. -/
def charIndex (c : Char) : List Char → Option Nat
  | [] => none
  | d :: rest => if d = c then some 0 else (charIndex c rest).map (· + 1)

/-- Six-bit value of an alphabet character; `none` for anything else,
including the padding character. -/
def b64Val (c : Char) : Option Nat := charIndex c alphabet

/-- Base64 encoding of a byte list, three bytes to four characters, with `=`
padding on a final one- or two-byte group. -/
def encodeChunks : List Nat → List Char
  | [] => []
  | [b0] => [b64Char (b0 / 4), b64Char (b0 % 4 * 16), '=', '=']
  | [b0, b1] =>
    [b64Char (b0 / 4), b64Char (b0 % 4 * 16 + b1 / 16), b64Char (b1 % 16 * 4), '=']
  | b0 :: b1 :: b2 :: rest =>
    b64Char (b0 / 4) :: b64Char (b0 % 4 * 16 + b1 / 16) ::
      b64Char (b1 % 16 * 4 + b2 / 64) :: b64Char (b2 % 64) :: encodeChunks rest

/-- Model of `base64.StdEncoding.EncodeToString`. -/
def base64Encode (bs : List Nat) : Str := encodeChunks bs

/-- Base64 decoding of a character list in four-character quanta; fails on a
length that is not a multiple of four, on characters outside the alphabet, and
on padding anywhere but the end of the input (as
`base64.StdEncoding.DecodeString` does; like it, non-zero trailing padding
bits are accepted). -/
def decodeChunks : List Char → Option (List Nat)
  | [] => some []
  | c0 :: c1 :: c2 :: c3 :: rest =>
    match b64Val c0, b64Val c1 with
    | some v0, some v1 =>
      if c2 = '=' then
        if c3 = '=' ∧ rest = [] then some [v0 * 4 + v1 / 16] else none
      else
        match b64Val c2 with
        | some v2 =>
          if c3 = '=' then
            if rest = [] then some [v0 * 4 + v1 / 16, v1 % 16 * 16 + v2 / 4]
            else none
          else
            match b64Val c3, decodeChunks rest with
            | some v3, some bs =>
              some ((v0 * 4 + v1 / 16) :: (v1 % 16 * 16 + v2 / 4) ::
                (v2 % 4 * 64 + v3) :: bs)
            | _, _ => none
        | none => none
    | _, _ => none
  | _ => none

/-- Model of `base64.StdEncoding.DecodeString`: newline characters are ignored,
then the input is decoded in quanta. -/
def base64Decode (s : Str) : Option (List Nat) :=
  decodeChunks (s.filter (fun c => !(c == '\n' || c == '\r')))

/-- Model of `crypto/cipher` AES-GCM `Seal` (Go standard library, external to
this repository) as an ideal authenticated cipher: the sealed value binds the
plaintext to the exact key and nonce. The concrete tag layout is abstracted;
what is kept is the authenticated-encryption contract that `Open` accepts
exactly the values produced by `Seal` under the same key and nonce. -/
def gcmSeal (key nonce plain : List Nat) : List Nat :=
  plain ++ key ++ nonce

/-- Model of AES-GCM `Open`: fails on a wrong-size nonce, and otherwise
succeeds exactly on outputs of `gcmSeal` with the same key and nonce (the
computational unforgeability of GCM taken as the library contract). -/
def gcmOpen (key nonce ct : List Nat) : Option (List Nat) :=
  if nonce.length ≠ 12 then none
  else
    if key.length + nonce.length ≤ ct.length ∧
        ct.drop (ct.length - (key.length + nonce.length)) = key ++ nonce then
      some (ct.take (ct.length - (key.length + nonce.length)))
    else none

/-- Key sizes accepted by `aes.NewCipher`. -/
def validKeySize (key : List Nat) : Bool :=
  key.length == 16 || key.length == 24 || key.length == 32

/-- `encrypt(value, key)` from `grm/main.go`. The fresh random nonce read from
`rand.Reader` (of length `NonceSize() = 12`) is passed explicitly as `salt`.
Returns the base64 ciphertext and the base64 nonce; a bad key size is the
`log.Fatal` of `aes.NewCipher`. -/
def encrypt (value : List Nat) (key salt : List Nat) : Except String (Str × Str) :=
  if validKeySize key = false then .error "Could not setup password encryption"
  else if salt.length ≠ 12 then .error "cipher: incorrect nonce length given to GCM"
  else .ok (base64Encode (gcmSeal key salt value), base64Encode salt)

/-- `decrypt(value, salt, key)` from `grm/main.go`: base64-decode the
ciphertext, set up the cipher, base64-decode the nonce, and open; every failure
is a `log.Fatal`, never a fallback to plaintext. -/
def decrypt (value salt : Str) (key : List Nat) : Except String (List Nat) :=
  match base64Decode value with
  | none => .error "Could not decryption password"
  | some data =>
    if validKeySize key = false then .error "Could not setup password decryption"
    else
      match base64Decode salt with
      | none => .error "Could not decode the password salt"
      | some iv =>
        match gcmOpen key iv data with
        | none => .error "Could not decrypt password"
        | some p => .ok p

/-- The process dies with a diagnostic instead of returning a value. -/
def fatalError (e : Except String α) : Prop := ∀ r, e ≠ .ok r

/-- Modelled from the spec: the export serializer (`cmdExport`, whose source is
not under `src/`) writes, for a named-section instance, "only exportable keys
(and all of their specifier overrides)". Each raw entry of the instance's
kvmap is kept exactly when the Key it belongs to — `KeyLookup` on the stored
key, which strips any `:specifier` suffix — is exportable. -/
def exportSection (i : Ini) (name : Str) (s : Section) : Kvmap :=
  ((iniGetKvmap i (buildSectionName s name)).getD []).filter
    (fun kv =>
      match KeyLookup kv.1 with
      | some k => k.exportable
      | none => false)

/-! Helper lemmas about the store operations. -/

theorem kvGet_kvSet_self (m : Kvmap) (k v : Str) : kvGet (kvSet m k v) k = some v := by
  induction m with
  | nil => simp [kvSet, kvGet]
  | cons kv rest ih =>
    obtain ⟨k', v'⟩ := kv
    by_cases h : k' = k <;> simp [kvSet, kvGet, h, ih]

theorem kvGet_kvSet_ne (m : Kvmap) {k k' : Str} (h : k' ≠ k) (v : Str) :
    kvGet (kvSet m k v) k' = kvGet m k' := by
  have h' : k ≠ k' := fun hh => h hh.symm
  induction m with
  | nil => simp [kvSet, kvGet, h']
  | cons kv rest ih =>
    obtain ⟨k0, v0⟩ := kv
    by_cases h0 : k0 = k
    · subst h0
      simp [kvSet, kvGet, h']
    · simp [kvSet, kvGet, h0, ih]

theorem iniGetKvmap_iniSectionSet_self (i : Ini) (sec k v : Str) :
    iniGetKvmap (iniSectionSet i sec k v) sec =
      some (kvSet ((iniGetKvmap i sec).getD []) k v) := by
  induction i with
  | nil => simp [iniSectionSet, iniGetKvmap, kvSet]
  | cons sm rest ih =>
    obtain ⟨s', m⟩ := sm
    by_cases h : s' = sec <;> simp [iniSectionSet, iniGetKvmap, h, ih]

theorem iniSectionGet_iniSectionSet_self (i : Ini) (sec k v : Str) :
    iniSectionGet (iniSectionSet i sec k v) sec k = some v := by
  simp [iniSectionGet, iniGetKvmap_iniSectionSet_self, kvGet_kvSet_self]

theorem iniSectionGet_iniSectionSet_ne_key (i : Ini) (sec : Str) {k k' : Str}
    (h : k' ≠ k) (v : Str) :
    iniSectionGet (iniSectionSet i sec k v) sec k' = iniSectionGet i sec k' := by
  simp [iniSectionGet, iniGetKvmap_iniSectionSet_self, kvGet_kvSet_ne _ h]
  cases hm : iniGetKvmap i sec <;> simp [hm, kvGet]

theorem sectionGet_not_overloadable (i : Ini) (sec : Str) {k : Key}
    (h : k.overloadable = false) (sp : Str) :
    sectionGet i sec k sp = iniSectionGet i sec k.name := by
  simp [sectionGet, h]

theorem bare_ne_overloaded (k : Key) (sp : Str) :
    k.name ≠ buildOverloadedKey k sp := by
  intro h
  have hl := congrArg List.length h
  simp [buildOverloadedKey] at hl

theorem applyEdits_append (i : Ini) (es es' : List Edit) (j : Ini) :
    applyEdits i (es ++ es') = .ok j ↔
      ∃ m, applyEdits i es = .ok m ∧ applyEdits m es' = .ok j := by
  induction es generalizing i with
  | nil => simp [applyEdits]
  | cons a as ih =>
    simp only [List.cons_append, applyEdits]
    cases h : applyEdit i a <;> simp [h, ih]

theorem kvGet_kvDelete_ne (m : Kvmap) {k k' : Str} (h : k' ≠ k) :
    kvGet (kvDelete m k) k' = kvGet m k' := by
  have h' : k ≠ k' := fun hh => h hh.symm
  induction m with
  | nil => simp [kvDelete]
  | cons kv rest ih =>
    obtain ⟨k0, v0⟩ := kv
    by_cases h0 : k0 = k
    · subst h0
      simp [kvDelete, kvGet, h']
    · simp [kvDelete, kvGet, h0, ih]

theorem iniGetKvmap_iniSectionSet_ne_sec (i : Ini) {secW sec : Str}
    (h : secW ≠ sec) (k v : Str) :
    iniGetKvmap (iniSectionSet i secW k v) sec = iniGetKvmap i sec := by
  induction i with
  | nil => simp [iniSectionSet, iniGetKvmap, h]
  | cons sm rest ih =>
    obtain ⟨s0, m0⟩ := sm
    by_cases h0 : s0 = secW
    · subst h0
      simp [iniSectionSet, iniGetKvmap, h]
    · simp [iniSectionSet, iniGetKvmap, h0, ih]

theorem iniGetKvmap_iniDeleteKey_self (i : Ini) (sec k : Str) :
    iniGetKvmap (iniDeleteKey i sec k) sec =
      (iniGetKvmap i sec).map (fun m => kvDelete m k) := by
  induction i with
  | nil => simp [iniDeleteKey, iniGetKvmap]
  | cons sm rest ih =>
    obtain ⟨s0, m0⟩ := sm
    by_cases h0 : s0 = sec <;> simp [iniDeleteKey, iniGetKvmap, h0, ih]

theorem iniGetKvmap_iniDeleteKey_ne_sec (i : Ini) {secW sec : Str}
    (h : secW ≠ sec) (k : Str) :
    iniGetKvmap (iniDeleteKey i secW k) sec = iniGetKvmap i sec := by
  induction i with
  | nil => simp [iniDeleteKey]
  | cons sm rest ih =>
    obtain ⟨s0, m0⟩ := sm
    by_cases h0 : s0 = secW
    · subst h0
      simp [iniDeleteKey, iniGetKvmap, h]
    · simp [iniDeleteKey, iniGetKvmap, h0, ih]

theorem iniGetKvmap_iniDeleteSection_ne (i : Ini) {secW sec : Str}
    (h : secW ≠ sec) :
    iniGetKvmap (iniDeleteSection i secW) sec = iniGetKvmap i sec := by
  induction i with
  | nil => simp [iniDeleteSection]
  | cons sm rest ih =>
    obtain ⟨s0, m0⟩ := sm
    by_cases h0 : s0 = secW
    · subst h0
      simp [iniDeleteSection, iniGetKvmap, h]
    · simp [iniDeleteSection, iniGetKvmap, h0, ih]

theorem iniSectionGet_iniDeleteKey_ne (i : Ini) {secW sec k k' : Str}
    (h : secW ≠ sec ∨ k' ≠ k) :
    iniSectionGet (iniDeleteKey i secW k) sec k' = iniSectionGet i sec k' := by
  by_cases hsec : secW = sec
  · subst hsec
    rcases h with h | h
    · exact absurd rfl h
    · unfold iniSectionGet
      rw [iniGetKvmap_iniDeleteKey_self]
      cases iniGetKvmap i secW <;> simp [kvGet_kvDelete_ne _ h]
  · unfold iniSectionGet
    rw [iniGetKvmap_iniDeleteKey_ne_sec i hsec]

/-- An edit that does not touch the entry `(sec, ek)` leaves its lookup
unchanged. -/
theorem applyEdit_preserves (i j : Ini) (e : Edit) (sec ek : Str)
    (h : applyEdit i e = .ok j) (ht : touches sec ek e = false) :
    iniSectionGet j sec ek = iniSectionGet i sec ek := by
  cases e with
  | delete s2 =>
    cases hn : s2.named with
    | true => simp [applyEdit, hn] at h
    | false =>
      simp only [applyEdit, hn, Bool.false_eq_true, if_false, Except.ok.injEq] at h
      subst h
      have hns : s2.name ≠ sec := by simpa [touches] using ht
      unfold iniSectionGet
      rw [iniGetKvmap_iniDeleteSection_ne i hns]
  | sectionSet s2 k2 sp2 v2 =>
    cases hn : s2.named with
    | true => simp [applyEdit, hn] at h
    | false =>
      simp only [applyEdit, hn, Bool.false_eq_true, if_false, Except.ok.injEq] at h
      subst h
      simp only [touches, Bool.and_eq_false_iff, beq_eq_false_iff_ne, ne_eq] at ht
      by_cases hsec : s2.name = sec
      · rcases ht with h1 | h1
        · exact absurd hsec h1
        · subst hsec
          exact iniSectionGet_iniSectionSet_ne_key i s2.name (fun hh => h1 hh.symm) v2
      · unfold iniSectionGet
        rw [iniGetKvmap_iniSectionSet_ne_sec i hsec]
  | sectionDelete s2 k2 sp2 =>
    cases hn : s2.named with
    | true => simp [applyEdit, hn] at h
    | false =>
      simp only [applyEdit, hn, Bool.false_eq_true, if_false, Except.ok.injEq] at h
      subst h
      simp only [touches, Bool.and_eq_false_iff, beq_eq_false_iff_ne, ne_eq] at ht
      rcases ht with h1 | h1
      · exact iniSectionGet_iniDeleteKey_ne i (Or.inl h1)
      · exact iniSectionGet_iniDeleteKey_ne i (Or.inr (fun hh => h1 hh.symm))
  | namedDelete nm s2 =>
    cases hn : s2.named with
    | false => simp [applyEdit, hn] at h
    | true =>
      simp only [applyEdit, hn, Bool.true_eq_false, if_false, Except.ok.injEq] at h
      subst h
      have hns : buildSectionName s2 nm ≠ sec := by simpa [touches] using ht
      unfold iniSectionGet
      rw [iniGetKvmap_iniDeleteSection_ne i hns]
  | namedSectionSet nm s2 k2 sp2 v2 =>
    cases hn : s2.named with
    | false => simp [applyEdit, hn] at h
    | true =>
      simp only [applyEdit, hn, Bool.true_eq_false, if_false, Except.ok.injEq] at h
      subst h
      simp only [touches, Bool.and_eq_false_iff, beq_eq_false_iff_ne, ne_eq] at ht
      by_cases hsec : buildSectionName s2 nm = sec
      · rcases ht with h1 | h1
        · exact absurd hsec h1
        · subst hsec
          exact iniSectionGet_iniSectionSet_ne_key i _ (fun hh => h1 hh.symm) v2
      · unfold iniSectionGet
        rw [iniGetKvmap_iniSectionSet_ne_sec i hsec]
  | namedSectionDelete nm s2 k2 sp2 =>
    cases hn : s2.named with
    | false => simp [applyEdit, hn] at h
    | true =>
      simp only [applyEdit, hn, Bool.true_eq_false, if_false, Except.ok.injEq] at h
      subst h
      simp only [touches, Bool.and_eq_false_iff, beq_eq_false_iff_ne, ne_eq] at ht
      rcases ht with h1 | h1
      · exact iniSectionGet_iniDeleteKey_ne i (Or.inl h1)
      · exact iniSectionGet_iniDeleteKey_ne i (Or.inr (fun hh => h1 hh.symm))

/-- A run of edits none of which touches `(sec, ek)` leaves its lookup
unchanged. -/
theorem applyEdits_preserves (sec ek : Str) (es : List Edit) :
    ∀ i j, applyEdits i es = .ok j → (∀ e ∈ es, touches sec ek e = false) →
      iniSectionGet j sec ek = iniSectionGet i sec ek := by
  induction es with
  | nil =>
    intro i j h _
    simp only [applyEdits, Except.ok.injEq] at h
    rw [h]
  | cons e es ih =>
    intro i j h ht
    cases he : applyEdit i e with
    | error m => simp [applyEdits, he] at h
    | ok m =>
      simp only [applyEdits, he] at h
      rw [ih m j h (fun e' he' => ht e' (List.mem_cons_of_mem _ he')),
        applyEdit_preserves i m e sec ek he (ht e (List.mem_cons_self _ _))]

/-! Claim theorems. -/

/-- C1: for every section, overloadable key K and non-empty specifier S, a
value stored under the effective key `K:S` is returned by
`SectionGet`/`NamedSectionGet` with specifier S even when a different value is
stored under bare K; when `K:S` is absent the bare K entry is returned; and a
call with the empty specifier returns exactly the bare K entry, never a `K:S`
entry. -/
theorem c1_overload_resolution
    (c : Configuration) (i : Ini) (hc : c.ini = some i)
    (s : Section) (k : Key) (sp name : Str)
    (hk : k.overloadable = true) (hsp : sp ≠ []) :
    (∀ v, s.named = false →
      iniSectionGet i s.name (buildOverloadedKey k sp) = some v →
      SectionGet c s k sp = .ok (some v)) ∧
    (s.named = false →
      iniSectionGet i s.name (buildOverloadedKey k sp) = none →
      SectionGet c s k sp = .ok (iniSectionGet i s.name k.name)) ∧
    (s.named = false →
      SectionGet c s k [] = .ok (iniSectionGet i s.name k.name)) ∧
    (∀ v, s.named = true →
      iniSectionGet i (buildSectionName s name) (buildOverloadedKey k sp) = some v →
      NamedSectionGet c name s k sp = .ok (some v)) ∧
    (s.named = true →
      iniSectionGet i (buildSectionName s name) (buildOverloadedKey k sp) = none →
      NamedSectionGet c name s k sp =
        .ok (iniSectionGet i (buildSectionName s name) k.name)) ∧
    (s.named = true →
      NamedSectionGet c name s k [] =
        .ok (iniSectionGet i (buildSectionName s name) k.name)) := by
  refine ⟨?_, ?_, ?_, ?_, ?_, ?_⟩
  · intro v hn hv
    simp [SectionGet, hc, hn, sectionGet, hk, hsp, hv]
  · intro hn hv
    simp [SectionGet, hc, hn, sectionGet, hk, hsp, hv]
  · intro hn
    simp [SectionGet, hc, hn, sectionGet]
  · intro v hn hv
    simp [NamedSectionGet, hc, hn, sectionGet, hk, hsp, hv]
  · intro hn hv
    simp [NamedSectionGet, hc, hn, sectionGet, hk, hsp, hv]
  · intro hn
    simp [NamedSectionGet, hc, hn, sectionGet]

/-- Store with a base value and a per-repository override for the overloadable
`download-url` key, in an unnamed demonstration section. -/
def demoFlat : Ini :=
  [(str "General",
    [(str "download-url", str "base"), (str "download-url:repo", str "ovr")])]

/-- An unnamed demonstration section. -/
def GeneralSec : Section := ⟨str "General", false⟩

/-- Store with a base value and an override inside a `Remote "acme"` header. -/
def demoNamed : Ini :=
  [(str "Remote \"acme\"",
    [(str "download-url", str "base"), (str "download-url:repo", str "ovr")])]

/-- Witness for C1 at a concrete store. -/
theorem c1_overload_resolution_witness :
    SectionGet ⟨some demoFlat⟩ GeneralSec DownloadUrl (str "repo") = .ok (some (str "ovr")) ∧
    SectionGet ⟨some demoFlat⟩ GeneralSec DownloadUrl [] =
      .ok (iniSectionGet demoFlat GeneralSec.name DownloadUrl.name) ∧
    NamedSectionGet ⟨some demoNamed⟩ (str "acme") Remote DownloadUrl (str "repo") =
      .ok (some (str "ovr")) := by
  refine ⟨?_, ?_, ?_⟩
  · exact (c1_overload_resolution ⟨some demoFlat⟩ demoFlat rfl GeneralSec DownloadUrl
      (str "repo") (str "acme") (by decide) (by decide)).1 (str "ovr") rfl (by decide)
  · exact (c1_overload_resolution ⟨some demoFlat⟩ demoFlat rfl GeneralSec DownloadUrl
      (str "repo") (str "acme") (by decide) (by decide)).2.2.1 rfl
  · exact (c1_overload_resolution ⟨some demoNamed⟩ demoNamed rfl Remote DownloadUrl
      (str "repo") (str "acme") (by decide) (by decide)).2.2.2.1 (str "ovr") rfl (by decide)

/-- C7: for a non-overloadable key the supplied specifier never changes the
result of `SectionGet`/`NamedSectionGet`: any two specifier arguments give the
same answer, namely the bare entry; specifier-qualified entries are never
consulted. -/
theorem c7_specifier_ignored
    (c : Configuration) (i : Ini) (hc : c.ini = some i)
    (s : Section) (k : Key) (hk : k.overloadable = false)
    (name sp1 sp2 : Str) :
    (s.named = false →
      SectionGet c s k sp1 = SectionGet c s k sp2 ∧
      SectionGet c s k sp1 = .ok (iniSectionGet i s.name k.name)) ∧
    (s.named = true →
      NamedSectionGet c name s k sp1 = NamedSectionGet c name s k sp2 ∧
      NamedSectionGet c name s k sp1 =
        .ok (iniSectionGet i (buildSectionName s name) k.name)) := by
  constructor
  · intro hn
    simp [SectionGet, hc, hn, sectionGet_not_overloadable _ _ hk]
  · intro hn
    simp [NamedSectionGet, hc, hn, sectionGet_not_overloadable _ _ hk]

/-- Store holding both a bare `user` entry and a stray `user:repo` entry for
the non-overloadable `user` key. -/
def demoUser : Ini :=
  [(str "General", [(str "user", str "bob"), (str "user:repo", str "stray")])]

/-- Witness for C7: with a qualified `user:repo` entry present, the specifier
argument is ignored and the bare value is returned. -/
theorem c7_specifier_ignored_witness :
    SectionGet ⟨some demoUser⟩ GeneralSec RemoteUser (str "repo") =
      SectionGet ⟨some demoUser⟩ GeneralSec RemoteUser (str "other") ∧
    SectionGet ⟨some demoUser⟩ GeneralSec RemoteUser (str "repo") =
      .ok (iniSectionGet demoUser GeneralSec.name RemoteUser.name) :=
  (c7_specifier_ignored ⟨some demoUser⟩ demoUser rfl GeneralSec RemoteUser (by decide)
    (str "acme") (str "repo") (str "other")).1 rfl

/-- C10: for a non-overloadable key K and a non-empty specifier S, the mutator
`SectionSet`/`NamedSectionSet` stores the value under the qualified key `K:S`
(the bare K entry is untouched), yet resolution of K never probes `K:S` for a
non-overloadable key, so with any specifier argument the get still returns the
bare entry — the qualified entry is unreachable through the get accessors. -/
theorem c10_qualified_set_unreachable
    (i : Ini) (s : Section) (k : Key) (sp v name : Str)
    (hk : k.overloadable = false) (hsp : sp ≠ []) :
    (s.named = false →
      applyEdit i (.sectionSet s k sp v) =
        .ok (iniSectionSet i s.name (buildOverloadedKey k sp) v) ∧
      iniSectionGet (iniSectionSet i s.name (buildOverloadedKey k sp) v) s.name
        (buildOverloadedKey k sp) = some v ∧
      iniSectionGet (iniSectionSet i s.name (buildOverloadedKey k sp) v) s.name k.name =
        iniSectionGet i s.name k.name ∧
      (∀ sp', SectionGet ⟨some (iniSectionSet i s.name (buildOverloadedKey k sp) v)⟩ s k sp' =
        .ok (iniSectionGet (iniSectionSet i s.name (buildOverloadedKey k sp) v) s.name k.name))) ∧
    (s.named = true →
      applyEdit i (.namedSectionSet name s k sp v) =
        .ok (iniSectionSet i (buildSectionName s name) (buildOverloadedKey k sp) v) ∧
      iniSectionGet (iniSectionSet i (buildSectionName s name) (buildOverloadedKey k sp) v)
        (buildSectionName s name) (buildOverloadedKey k sp) = some v ∧
      iniSectionGet (iniSectionSet i (buildSectionName s name) (buildOverloadedKey k sp) v)
        (buildSectionName s name) k.name = iniSectionGet i (buildSectionName s name) k.name ∧
      (∀ sp', NamedSectionGet
          ⟨some (iniSectionSet i (buildSectionName s name) (buildOverloadedKey k sp) v)⟩
          name s k sp' =
        .ok (iniSectionGet (iniSectionSet i (buildSectionName s name) (buildOverloadedKey k sp) v)
          (buildSectionName s name) k.name))) := by
  constructor
  · intro hn
    refine ⟨?_, ?_, ?_, ?_⟩
    · simp [applyEdit, hn, effectiveKey, hsp]
    · exact iniSectionGet_iniSectionSet_self ..
    · exact iniSectionGet_iniSectionSet_ne_key _ _ (bare_ne_overloaded k sp) _
    · intro sp'
      simp [SectionGet, hn, sectionGet_not_overloadable _ _ hk]
  · intro hn
    refine ⟨?_, ?_, ?_, ?_⟩
    · simp [applyEdit, hn, effectiveKey, hsp]
    · exact iniSectionGet_iniSectionSet_self ..
    · exact iniSectionGet_iniSectionSet_ne_key _ _ (bare_ne_overloaded k sp) _
    · intro sp'
      simp [NamedSectionGet, hn, sectionGet_not_overloadable _ _ hk]

/-- Witness for C10: writing `user` with specifier `repo` into an empty store
creates only `user:repo`, and a get of `user` with the very same specifier
still reports the bare entry (absent). -/
theorem c10_qualified_set_unreachable_witness :
    applyEdit [] (.sectionSet GeneralSec RemoteUser (str "repo") (str "bob")) =
      .ok (iniSectionSet [] GeneralSec.name (buildOverloadedKey RemoteUser (str "repo"))
        (str "bob")) ∧
    iniSectionGet (iniSectionSet [] GeneralSec.name
        (buildOverloadedKey RemoteUser (str "repo")) (str "bob")) GeneralSec.name
      (buildOverloadedKey RemoteUser (str "repo")) = some (str "bob") ∧
    SectionGet ⟨some (iniSectionSet [] GeneralSec.name
        (buildOverloadedKey RemoteUser (str "repo")) (str "bob"))⟩ GeneralSec RemoteUser
      (str "repo") =
      .ok (iniSectionGet (iniSectionSet [] GeneralSec.name
        (buildOverloadedKey RemoteUser (str "repo")) (str "bob")) GeneralSec.name
        RemoteUser.name) := by
  have h := (c10_qualified_set_unreachable [] GeneralSec RemoteUser (str "repo") (str "bob")
    (str "acme") (by decide) (by decide)).1 rfl
  exact ⟨h.1, h.2.1, h.2.2.2 (str "repo")⟩

/-- A stored value under the effective key of `(k, sp)` is what resolution
returns, for an empty specifier or for an overloadable key with its
specifier. -/
theorem sectionGet_effective (i : Ini) (sec : Str) (k : Key) (sp v : Str)
    (hsp : sp = [] ∨ k.overloadable = true)
    (hget : iniSectionGet i sec (effectiveKey k sp) = some v) :
    sectionGet i sec k sp = some v := by
  by_cases h0 : sp = []
  · subst h0
    rw [effectiveKey, if_pos rfl] at hget
    simp [sectionGet, hget]
  · rcases hsp with h | hov
    · exact absurd h h0
    · rw [effectiveKey, if_neg h0] at hget
      simp [sectionGet, hov, h0, hget]

/-- C3: an `ApplyChanges` call whose batch runs without a fatal guard first
initializes the store (also when no config file ever existed, so the in-memory
ini may start nil), applies every edit, and performs exactly one disk write,
after which the persisted file holds the store with the entire batch applied —
no edit is left unpersisted on successful return. -/
theorem c3_applyChanges_single_write
    (w : World) (edits : List Edit) (i' : Ini)
    (happ : applyEdits (w.config.ini.getD []) edits = .ok i') :
    ApplyChanges w edits =
      .ok { config := ⟨some i'⟩, file := some i', writes := w.writes + 1 } := by
  simp [ApplyChanges, happ, store]

/-- Witness for C3: from a world with no config file at all, a two-edit batch
is persisted by a single write. -/
theorem c3_applyChanges_single_write_witness :
    ApplyChanges ⟨⟨none⟩, none, 0⟩
      [.namedSectionSet (str "acme") Remote RemoteUser [] (str "bob"),
       .namedSectionSet (str "acme") Remote ShowPrivate [] (str "true")] =
      .ok { config := ⟨some [(str "Remote \"acme\"",
              [(str "user", str "bob"), (str "show-private", str "true")])]⟩,
            file := some [(str "Remote \"acme\"",
              [(str "user", str "bob"), (str "show-private", str "true")])],
            writes := 1 } :=
  c3_applyChanges_single_write ⟨⟨none⟩, none, 0⟩ _ _ (by decide)

/-- C8 (counterexample): the claim fails as frozen. A batch that sets the
non-overloadable `user` key with specifier `repo` persists the entry under
`user:repo`, yet after reload the get with the very same section, key and
specifier reports not-found, because resolution never probes the qualified key
for a non-overloadable key; and when one batch sets the same key twice, the
get after reload returns the later value, not the earlier value that was also
set in the batch. -/
theorem c8_counterexample :
    ApplyChanges ⟨⟨none⟩, none, 0⟩
      [.namedSectionSet (str "acme") Remote RemoteUser (str "repo") (str "bob")] =
      .ok ⟨⟨some [(str "Remote \"acme\"", [(str "user:repo", str "bob")])]⟩,
        some [(str "Remote \"acme\"", [(str "user:repo", str "bob")])], 1⟩ ∧
    NamedSectionGet (NewConfiguration
        (some [(str "Remote \"acme\"", [(str "user:repo", str "bob")])]))
      (str "acme") Remote RemoteUser (str "repo") = .ok none ∧
    ApplyChanges ⟨⟨none⟩, none, 0⟩
      [.namedSectionSet (str "acme") Remote ShowPrivate [] (str "v1"),
       .namedSectionSet (str "acme") Remote ShowPrivate [] (str "v2")] =
      .ok ⟨⟨some [(str "Remote \"acme\"", [(str "show-private", str "v2")])]⟩,
        some [(str "Remote \"acme\"", [(str "show-private", str "v2")])], 1⟩ ∧
    NamedSectionGet (NewConfiguration
        (some [(str "Remote \"acme\"", [(str "show-private", str "v2")])]))
      (str "acme") Remote ShowPrivate [] ≠ .ok (some (str "v1")) :=
  ⟨by decide, by decide, by decide, by decide⟩

/-- C8 (amended): after any successful `ApplyChanges`, reloading from the
persisted file yields exactly the persisted configuration (so every get
agrees before and after reload); and a get with the same section, key and
specifier as a set occurring anywhere in the batch returns that identical
value, provided the set is resolvable — the key overloadable or the specifier
empty (a non-overloadable key set with a non-empty specifier lands under
`K:S`, which resolution never probes) — and no later edit of the batch
touches that entry or deletes its section. -/
theorem c8_persist_reload_amended :
    (∀ w w' edits, ApplyChanges w edits = .ok w' →
      NewConfiguration w'.file = w'.config) ∧
    (∀ w w' es1 es2 (s : Section) (k : Key) sp v,
      ApplyChanges w (es1 ++ .sectionSet s k sp v :: es2) = .ok w' →
      (sp = [] ∨ k.overloadable = true) →
      (∀ e ∈ es2, touches s.name (effectiveKey k sp) e = false) →
      SectionGet (NewConfiguration w'.file) s k sp = .ok (some v)) ∧
    (∀ w w' es1 es2 name (s : Section) (k : Key) sp v,
      ApplyChanges w (es1 ++ .namedSectionSet name s k sp v :: es2) = .ok w' →
      (sp = [] ∨ k.overloadable = true) →
      (∀ e ∈ es2, touches (buildSectionName s name) (effectiveKey k sp) e = false) →
      NamedSectionGet (NewConfiguration w'.file) name s k sp = .ok (some v)) := by
  refine ⟨?_, ?_, ?_⟩
  · intro w w' edits happ
    cases happly : applyEdits (w.config.ini.getD []) edits with
    | error m => simp [ApplyChanges, happly] at happ
    | ok ifin =>
      simp only [ApplyChanges, happly, Except.ok.injEq] at happ
      subst happ
      rfl
  · intro w w' es1 es2 s k sp v happ hsp htouch
    cases happly : applyEdits (w.config.ini.getD [])
        (es1 ++ .sectionSet s k sp v :: es2) with
    | error m => simp [ApplyChanges, happly] at happ
    | ok ifin =>
      simp only [ApplyChanges, happly, Except.ok.injEq] at happ
      obtain ⟨m1, hm1, hrest⟩ := (applyEdits_append _ _ _ _).mp happly
      cases hset : applyEdit m1 (.sectionSet s k sp v) with
      | error m => simp [applyEdits, hset] at hrest
      | ok m2 =>
        simp only [applyEdits, hset] at hrest
        cases hn : s.named with
        | true => simp [applyEdit, hn] at hset
        | false =>
          simp only [applyEdit, hn, Bool.false_eq_true, if_false,
            Except.ok.injEq] at hset
          subst happ
          simp only [store, NewConfiguration, SectionGet, hn, Bool.false_eq_true,
            if_false, Except.ok.injEq]
          apply sectionGet_effective _ _ _ _ _ hsp
          rw [applyEdits_preserves _ _ es2 m2 ifin hrest htouch, ← hset]
          exact iniSectionGet_iniSectionSet_self ..
  · intro w w' es1 es2 name s k sp v happ hsp htouch
    cases happly : applyEdits (w.config.ini.getD [])
        (es1 ++ .namedSectionSet name s k sp v :: es2) with
    | error m => simp [ApplyChanges, happly] at happ
    | ok ifin =>
      simp only [ApplyChanges, happly, Except.ok.injEq] at happ
      obtain ⟨m1, hm1, hrest⟩ := (applyEdits_append _ _ _ _).mp happly
      cases hset : applyEdit m1 (.namedSectionSet name s k sp v) with
      | error m => simp [applyEdits, hset] at hrest
      | ok m2 =>
        simp only [applyEdits, hset] at hrest
        cases hn : s.named with
        | false => simp [applyEdit, hn] at hset
        | true =>
          simp only [applyEdit, hn, Bool.true_eq_false, if_false,
            Except.ok.injEq] at hset
          subst happ
          simp only [store, NewConfiguration, NamedSectionGet, hn, Bool.true_eq_false,
            if_false, Except.ok.injEq]
          apply sectionGet_effective _ _ _ _ _ hsp
          rw [applyEdits_preserves _ _ es2 m2 ifin hrest htouch, ← hset]
          exact iniSectionGet_iniSectionSet_self ..

/-- Witness for C8 (amended): a three-edit batch whose middle edit sets
`user = bob` in `Remote "acme"`, followed by a later edit on a different key;
after reload the middle set reads back, and the reloaded configuration equals
the persisted one; also an unnamed-section override set reads back. -/
theorem c8_persist_reload_amended_witness :
    NewConfiguration (Option.some [(str "Remote \"acme\"",
      [(str "show-private", str "true"), (str "user", str "bob"),
       (str "milestone-pattern", str "m1")])]) =
      Configuration.mk (some [(str "Remote \"acme\"",
      [(str "show-private", str "true"), (str "user", str "bob"),
       (str "milestone-pattern", str "m1")])]) ∧
    NamedSectionGet (NewConfiguration (some [(str "Remote \"acme\"",
      [(str "show-private", str "true"), (str "user", str "bob"),
       (str "milestone-pattern", str "m1")])]))
      (str "acme") Remote RemoteUser [] = .ok (some (str "bob")) ∧
    SectionGet (NewConfiguration
        (some [(str "General", [(str "download-url:repo", str "u")])]))
      GeneralSec DownloadUrl (str "repo") = .ok (some (str "u")) := by
  refine ⟨?_, ?_, ?_⟩
  · exact c8_persist_reload_amended.1 ⟨⟨none⟩, none, 0⟩
      ⟨⟨some [(str "Remote \"acme\"",
        [(str "show-private", str "true"), (str "user", str "bob"),
         (str "milestone-pattern", str "m1")])]⟩,
       some [(str "Remote \"acme\"",
        [(str "show-private", str "true"), (str "user", str "bob"),
         (str "milestone-pattern", str "m1")])], 1⟩
      [.namedSectionSet (str "acme") Remote ShowPrivate [] (str "true"),
       .namedSectionSet (str "acme") Remote RemoteUser [] (str "bob"),
       .namedSectionSet (str "acme") Remote MilestonePattern [] (str "m1")]
      (by decide)
  · exact c8_persist_reload_amended.2.2 ⟨⟨none⟩, none, 0⟩
      ⟨⟨some [(str "Remote \"acme\"",
        [(str "show-private", str "true"), (str "user", str "bob"),
         (str "milestone-pattern", str "m1")])]⟩,
       some [(str "Remote \"acme\"",
        [(str "show-private", str "true"), (str "user", str "bob"),
         (str "milestone-pattern", str "m1")])], 1⟩
      [.namedSectionSet (str "acme") Remote ShowPrivate [] (str "true")]
      [.namedSectionSet (str "acme") Remote MilestonePattern [] (str "m1")]
      (str "acme") Remote RemoteUser [] (str "bob")
      (by decide) (Or.inl rfl) (by decide)
  · exact c8_persist_reload_amended.2.1 ⟨⟨none⟩, none, 0⟩
      ⟨⟨some [(str "General", [(str "download-url:repo", str "u")])]⟩,
       some [(str "General", [(str "download-url:repo", str "u")])], 1⟩
      [] [] GeneralSec DownloadUrl (str "repo") (str "u")
      (by decide) (Or.inr (by decide)) (by decide)

/-- C4 (code bug, evaluated): when no config file exists `NewConfiguration`
returns with the ini pointer still nil, and every read accessor then invokes a
goini method on the nil pointer and crashes, instead of the empty mapping or
explicit not-found result the claim promises. -/
theorem c4_nil_ini_read_crash :
    (NewConfiguration none).ini = none ∧
    SectionMap (NewConfiguration none) GeneralSec = .error nilDeref ∧
    SectionGet (NewConfiguration none) GeneralSec RemoteUser [] = .error nilDeref ∧
    SectionGetOverrides (NewConfiguration none) GeneralSec DownloadUrl = .error nilDeref ∧
    NamedSections (NewConfiguration none) Remote = .error nilDeref ∧
    NamedSection (NewConfiguration none) (str "acme") Remote = .error nilDeref ∧
    NamedSectionGet (NewConfiguration none) (str "acme") Remote RemoteUser [] =
      .error nilDeref ∧
    NamedSectionGetOverrides (NewConfiguration none) (str "acme") Remote DownloadUrl =
      .error nilDeref :=
  ⟨rfl, rfl, rfl, rfl, rfl, rfl, rfl, rfl⟩

/-- C5 (counterexample): on a store holding the single header `Remote "acme"`,
`NamedSections` returns the raw header string, not the instance name `acme`
that the claim says is returned. -/
theorem c5_counterexample :
    NamedSections ⟨some [(str "Remote \"acme\"", [(str "user", str "bob")])]⟩ Remote =
      .ok [str "Remote \"acme\""] ∧
    [str "Remote \"acme\""] ≠ [str "acme"] :=
  ⟨rfl, by decide⟩

/-- C5 (amended): `NamedSections` returns exactly the raw persisted section
headers whose `SectionLookup` matches the named template — one per matching
section, distinct whenever the stored headers are, order not significant, and
independent of the key/value content inside each section. -/
theorem c5_named_sections_headers
    (c : Configuration) (i : Ini) (hc : c.ini = some i) (s : Section) :
    ∃ l, NamedSections c s = .ok l ∧
      (∀ h, h ∈ l ↔ h ∈ i.map Prod.fst ∧ SectionLookup h = some s) ∧
      ((i.map Prod.fst).Nodup → l.Nodup) ∧
      (∀ i', i.map Prod.fst = i'.map Prod.fst →
        NamedSections ⟨some i'⟩ s = NamedSections c s) := by
  refine ⟨(i.map Prod.fst).filter (fun h => decide (SectionLookup h = some s)),
    by simp [NamedSections, hc], ?_, ?_, ?_⟩
  · intro h
    simp [List.mem_filter]
  · intro hnd
    exact hnd.filter _
  · intro i' hmap
    simp [NamedSections, hc, hmap]

/-- Witness for C5 (amended) at a concrete store. -/
theorem c5_named_sections_headers_witness :
    ∃ l, NamedSections ⟨some demoNamed⟩ Remote = .ok l ∧
      (∀ h, h ∈ l ↔ h ∈ demoNamed.map Prod.fst ∧ SectionLookup h = some Remote) ∧
      ((demoNamed.map Prod.fst).Nodup → l.Nodup) ∧
      (∀ i', demoNamed.map Prod.fst = i'.map Prod.fst →
        NamedSections ⟨some i'⟩ Remote = NamedSections ⟨some demoNamed⟩ Remote) :=
  c5_named_sections_headers ⟨some demoNamed⟩ demoNamed rfl Remote

/-- Store with one specifier override for `release-pattern` in `Remote "acme"`. -/
def demoOvr : Ini :=
  [(str "Remote \"acme\"", [(str "release-pattern:repo1", str "v*")])]

/-- C6 (counterexample): the overrides accessor keys its result by the full
stored key `release-pattern:repo1`, not by the specifier substring `repo1`
that the claim says is the key of the returned mapping. -/
theorem c6_counterexample :
    NamedSectionGetOverrides ⟨some demoOvr⟩ (str "acme") Remote ReleasePattern =
      .ok [(str "release-pattern:repo1", str "v*")] ∧
    [(str "release-pattern:repo1", str "v*")] ≠ [(str "repo1", str "v*")] :=
  ⟨rfl, by decide⟩

/-- C6 (amended): `SectionGetOverrides`/`NamedSectionGetOverrides` return
exactly the entries of the section's raw mapping whose stored key starts with
the prefix `K:`, keyed by the full stored key `K:specifier` (not by the bare
specifier), each mapped to its stored value. -/
theorem c6_overrides_by_full_key
    (c : Configuration) (i : Ini) (hc : c.ini = some i)
    (s : Section) (k : Key) (name : Str) :
    (s.named = false → ∃ l, SectionGetOverrides c s k = .ok l ∧
      ∀ kv, kv ∈ l ↔ kv ∈ (iniGetKvmap i s.name).getD [] ∧
        strHasPrefix kv.1 (k.name ++ [':']) = true) ∧
    (s.named = true → ∃ l, NamedSectionGetOverrides c name s k = .ok l ∧
      ∀ kv, kv ∈ l ↔ kv ∈ (iniGetKvmap i (buildSectionName s name)).getD [] ∧
        strHasPrefix kv.1 (k.name ++ [':']) = true) := by
  constructor
  · intro hn
    cases hm : iniGetKvmap i s.name with
    | some m =>
      refine ⟨m.filter (fun kv => strHasPrefix kv.1 (k.name ++ [':'])),
        by simp [SectionGetOverrides, hc, hn, hm], ?_⟩
      intro kv
      simp [hm, List.mem_filter]
    | none =>
      refine ⟨[], by simp [SectionGetOverrides, hc, hn, hm], ?_⟩
      intro kv
      simp [hm]
  · intro hn
    cases hm : iniGetKvmap i (buildSectionName s name) with
    | some m =>
      refine ⟨m.filter (fun kv => strHasPrefix kv.1 (k.name ++ [':'])),
        by simp [NamedSectionGetOverrides, hc, hn, hm], ?_⟩
      intro kv
      simp [hm, List.mem_filter]
    | none =>
      refine ⟨[], by simp [NamedSectionGetOverrides, hc, hn, hm], ?_⟩
      intro kv
      simp [hm]

/-- Witness for C6 (amended) at a concrete store. -/
theorem c6_overrides_by_full_key_witness :
    ∃ l, NamedSectionGetOverrides ⟨some demoOvr⟩ (str "acme") Remote ReleasePattern =
        .ok l ∧
      ∀ kv, kv ∈ l ↔
        kv ∈ (iniGetKvmap demoOvr (buildSectionName Remote (str "acme"))).getD [] ∧
          strHasPrefix kv.1 (ReleasePattern.name ++ [':']) = true :=
  (c6_overrides_by_full_key ⟨some demoOvr⟩ demoOvr rfl Remote ReleasePattern
    (str "acme")).2 rfl

/-- C9: no entry of the export output belongs to a non-exportable credential
key (`username`, `password`, `salt`) — neither as a bare entry nor as a
specifier-qualified one, since `KeyLookup` resolves both forms to the key. -/
theorem c9_export_excludes_credentials
    (i : Ini) (name : Str) (s : Section) :
    ∀ kv ∈ exportSection i name s,
      KeyLookup kv.1 ≠ some Username ∧ KeyLookup kv.1 ≠ some Password ∧
        KeyLookup kv.1 ≠ some Salt := by
  intro kv hkv
  have hf := (List.mem_filter.mp hkv).2
  refine ⟨?_, ?_, ?_⟩ <;> intro hEq <;> rw [hEq] at hf <;>
    simp [Username, Password, Salt] at hf

/-- Store whose `Remote "acme"` section holds credentials next to an
exportable key. -/
def demoCred : Ini :=
  [(str "Remote \"acme\"",
    [(str "username", str "bob"), (str "password", str "c2VjcmV0"),
     (str "salt", str "AAAA"), (str "user", str "acme")])]

/-- Witness for C9: the surviving exportable entry of a section that stores
credentials is not a credential entry. -/
theorem c9_export_excludes_credentials_witness :
    KeyLookup (str "user") ≠ some Username ∧ KeyLookup (str "user") ≠ some Password ∧
      KeyLookup (str "user") ≠ some Salt :=
  c9_export_excludes_credentials demoCred (str "acme") Remote
    (str "user", str "acme") (by decide)

/-! Lemmas for the encryption service. -/

theorem b64Val_b64Char {n : Nat} (h : n < 64) : b64Val (b64Char n) = some n := by
  have hall : ∀ m, m < 64 → b64Val (b64Char m) = some m := by decide
  exact hall n h

theorem b64Char_valid (n : Nat) :
    b64Char n ≠ '=' ∧ b64Char n ≠ '\n' ∧ b64Char n ≠ '\r' := by
  by_cases h : n < 64
  · have hall : ∀ m, m < 64 → b64Char m ≠ '=' ∧ b64Char m ≠ '\n' ∧ b64Char m ≠ '\r' := by
      decide
    exact hall n h
  · have hd : b64Char n = 'A' := by
      unfold b64Char
      apply List.getD_eq_default
      have : alphabet.length = 64 := by decide
      omega
    rw [hd]
    refine ⟨by decide, by decide, by decide⟩

theorem encodeChunks_valid :
    ∀ bs : List Nat, ∀ c ∈ encodeChunks bs, c ≠ '\n' ∧ c ≠ '\r'
  | [], c, hc => by simp [encodeChunks] at hc
  | [b0], c, hc => by
    simp only [encodeChunks, List.mem_cons, List.not_mem_nil, or_false] at hc
    rcases hc with h | h | h | h <;> subst h
    · exact (b64Char_valid _).2
    · exact (b64Char_valid _).2
    · exact ⟨by decide, by decide⟩
    · exact ⟨by decide, by decide⟩
  | [b0, b1], c, hc => by
    simp only [encodeChunks, List.mem_cons, List.not_mem_nil, or_false] at hc
    rcases hc with h | h | h | h <;> subst h
    · exact (b64Char_valid _).2
    · exact (b64Char_valid _).2
    · exact (b64Char_valid _).2
    · exact ⟨by decide, by decide⟩
  | b0 :: b1 :: b2 :: rest, c, hc => by
    simp only [encodeChunks, List.mem_cons] at hc
    rcases hc with h | h | h | h | h
    · exact h ▸ (b64Char_valid _).2
    · exact h ▸ (b64Char_valid _).2
    · exact h ▸ (b64Char_valid _).2
    · exact h ▸ (b64Char_valid _).2
    · exact encodeChunks_valid rest c h

theorem decode_encode :
    ∀ bs : List Nat, (∀ b ∈ bs, b < 256) → decodeChunks (encodeChunks bs) = some bs
  | [], _ => by simp [encodeChunks, decodeChunks]
  | [b0], hb => by
    have h0 : b0 < 256 := hb b0 (by simp)
    have e0 : b64Val (b64Char (b0 / 4)) = some (b0 / 4) := b64Val_b64Char (by omega)
    have e1 : b64Val (b64Char (b0 % 4 * 16)) = some (b0 % 4 * 16) :=
      b64Val_b64Char (by omega)
    simp [encodeChunks, decodeChunks, e0, e1]
    omega
  | [b0, b1], hb => by
    have h0 : b0 < 256 := hb b0 (by simp)
    have h1 : b1 < 256 := hb b1 (by simp)
    have e0 : b64Val (b64Char (b0 / 4)) = some (b0 / 4) := b64Val_b64Char (by omega)
    have e1 : b64Val (b64Char (b0 % 4 * 16 + b1 / 16)) =
        some (b0 % 4 * 16 + b1 / 16) := b64Val_b64Char (by omega)
    have e2 : b64Val (b64Char (b1 % 16 * 4)) = some (b1 % 16 * 4) :=
      b64Val_b64Char (by omega)
    have hne : b64Char (b0 % 4 * 16 + b1 / 16) ≠ '=' := (b64Char_valid _).1
    simp [encodeChunks, decodeChunks, e0, e1, e2, (b64Char_valid (b1 % 16 * 4)).1]
    omega
  | b0 :: b1 :: b2 :: rest, hb => by
    have h0 : b0 < 256 := hb b0 (by simp)
    have h1 : b1 < 256 := hb b1 (by simp)
    have h2 : b2 < 256 := hb b2 (by simp)
    have e0 : b64Val (b64Char (b0 / 4)) = some (b0 / 4) := b64Val_b64Char (by omega)
    have e1 : b64Val (b64Char (b0 % 4 * 16 + b1 / 16)) =
        some (b0 % 4 * 16 + b1 / 16) := b64Val_b64Char (by omega)
    have e2 : b64Val (b64Char (b1 % 16 * 4 + b2 / 64)) =
        some (b1 % 16 * 4 + b2 / 64) := b64Val_b64Char (by omega)
    have e3 : b64Val (b64Char (b2 % 64)) = some (b2 % 64) := b64Val_b64Char (by omega)
    have ih := decode_encode rest (fun b h => hb b (by simp [h]))
    simp [encodeChunks, decodeChunks, e0, e1, e2, e3, ih,
      (b64Char_valid (b1 % 16 * 4 + b2 / 64)).1, (b64Char_valid (b2 % 64)).1]
    omega

theorem base64_roundtrip (bs : List Nat) (hb : ∀ b ∈ bs, b < 256) :
    base64Decode (base64Encode bs) = some bs := by
  unfold base64Decode base64Encode
  have hfil : (encodeChunks bs).filter (fun c => !(c == '\n' || c == '\r')) =
      encodeChunks bs := by
    apply List.filter_eq_self.mpr
    intro c hc
    have h := encodeChunks_valid bs c hc
    have hn : (c == '\n') = false := by
      cases hbe : c == '\n'
      · rfl
      · exact absurd (eq_of_beq hbe) h.1
    have hr : (c == '\r') = false := by
      cases hbe : c == '\r'
      · rfl
      · exact absurd (eq_of_beq hbe) h.2
    simp [hn, hr]
  rw [hfil, decode_encode bs hb]

theorem gcmOpen_eq_some_iff (key nonce ct p : List Nat) :
    gcmOpen key nonce ct = some p ↔ nonce.length = 12 ∧ ct = p ++ key ++ nonce := by
  constructor
  · intro h
    unfold gcmOpen at h
    by_cases hn : nonce.length = 12
    · rw [if_neg (show ¬nonce.length ≠ 12 by simp [hn])] at h
      by_cases hcond : key.length + nonce.length ≤ ct.length ∧
          ct.drop (ct.length - (key.length + nonce.length)) = key ++ nonce
      · rw [if_pos hcond] at h
        have hp : p = ct.take (ct.length - (key.length + nonce.length)) :=
          (Option.some.inj h).symm
        refine ⟨hn, ?_⟩
        rw [hp, List.append_assoc, ← hcond.2, List.take_append_drop]
      · rw [if_neg hcond] at h
        exact absurd h (by simp)
    · rw [if_pos hn] at h
      exact absurd h (by simp)
  · rintro ⟨hn, rfl⟩
    have hlen : (p ++ key ++ nonce).length = p.length + (key.length + nonce.length) := by
      simp [List.length_append]
    have hsub : (p ++ key ++ nonce).length - (key.length + nonce.length) = p.length := by
      omega
    unfold gcmOpen
    rw [if_neg (by simp [hn])]
    rw [if_pos]
    · rw [hsub, List.append_assoc, List.take_left]
    · constructor
      · omega
      · rw [hsub, List.append_assoc, List.drop_left]

theorem gcmOpen_gcmSeal (key nonce plain : List Nat) (hn : nonce.length = 12) :
    gcmOpen key nonce (gcmSeal key nonce plain) = some plain :=
  (gcmOpen_eq_some_iff key nonce _ plain).mpr ⟨hn, rfl⟩

/-- C2: with a 32-byte key, `decrypt` recovers exactly the plaintext sealed by
`encrypt` (ciphertext and nonce as returned); and on a tampered ciphertext
(anything that does not decode to a sealing of this key and nonce — which
covers malformed base64), on a wrong nonce, or on a wrong key, `decrypt` dies
fatally; moreover whenever `decrypt` does return a value, that value is the
complete authenticated plaintext of its input, never partial data. -/
theorem c2_encrypt_decrypt
    (key salt v : List Nat)
    (hk : key.length = 32) (hkb : ∀ b ∈ key, b < 256)
    (hs : salt.length = 12) (hsb : ∀ b ∈ salt, b < 256)
    (hv : v ≠ []) (hvb : ∀ b ∈ v, b < 256) :
    (∃ c n, encrypt v key salt = .ok (c, n) ∧ decrypt c n key = .ok v) ∧
    (∀ s, (∀ d, base64Decode s = some d → ∀ p, d ≠ gcmSeal key salt p) →
      fatalError (decrypt s (base64Encode salt) key)) ∧
    (∀ salt', salt'.length = 12 → (∀ b ∈ salt', b < 256) → salt' ≠ salt →
      fatalError (decrypt (base64Encode (gcmSeal key salt v)) (base64Encode salt') key)) ∧
    (∀ key', key'.length = 32 → key' ≠ key →
      fatalError (decrypt (base64Encode (gcmSeal key salt v)) (base64Encode salt) key')) ∧
    (∀ s t, base64Decode s = none → fatalError (decrypt s t key)) ∧
    (∀ s t r, decrypt s t key = .ok r →
      ∃ iv d, base64Decode t = some iv ∧ base64Decode s = some d ∧
        d = gcmSeal key iv r) := by
  have hvk : validKeySize key = true := by simp [validKeySize, hk]
  have hsealb : ∀ b ∈ gcmSeal key salt v, b < 256 := by
    intro b hbm
    simp only [gcmSeal, List.append_assoc, List.mem_append] at hbm
    rcases hbm with h | h | h
    · exact hvb b h
    · exact hkb b h
    · exact hsb b h
  have hrtSeal : base64Decode (base64Encode (gcmSeal key salt v)) =
      some (gcmSeal key salt v) := base64_roundtrip _ hsealb
  have hrtSalt : base64Decode (base64Encode salt) = some salt := base64_roundtrip _ hsb
  refine ⟨?_, ?_, ?_, ?_, ?_, ?_⟩
  · refine ⟨base64Encode (gcmSeal key salt v), base64Encode salt, ?_, ?_⟩
    · simp [encrypt, hvk, hs]
    · simp [decrypt, hrtSeal, hrtSalt, hvk, gcmOpen_gcmSeal key salt v hs]
  · intro s htam
    cases hdec : base64Decode s with
    | none => intro r; simp [decrypt, hdec]
    | some d =>
      cases hop : gcmOpen key salt d with
      | none => intro r; simp [decrypt, hdec, hvk, hrtSalt, hop]
      | some p =>
        have := ((gcmOpen_eq_some_iff key salt d p).mp hop).2
        exact absurd (this.trans rfl) (htam d hdec p)
  · intro salt' hs' hsb' hne
    have hrtSalt' : base64Decode (base64Encode salt') = some salt' :=
      base64_roundtrip _ hsb'
    cases hop : gcmOpen key salt' (gcmSeal key salt v) with
    | none => intro r; simp [decrypt, hrtSeal, hvk, hrtSalt', hop]
    | some p =>
      exfalso
      have heq := ((gcmOpen_eq_some_iff key salt' _ p).mp hop).2
      rw [gcmSeal, List.append_assoc, List.append_assoc] at heq
      have hsuf : (key ++ salt).length = (key ++ salt').length := by
        simp [hs, hs']
      have h2 := (List.append_inj' heq hsuf).2
      have h3 := (List.append_inj h2 rfl).2
      exact hne (h3.symm)
  · intro key' hk' hne
    cases hop : gcmOpen key' salt (gcmSeal key salt v) with
    | none => intro r; simp [decrypt, hrtSeal, validKeySize, hk', hrtSalt, hop]
    | some p =>
      exfalso
      have heq := ((gcmOpen_eq_some_iff key' salt _ p).mp hop).2
      rw [gcmSeal] at heq
      have hsuf : salt.length = salt.length := rfl
      have h2 := (List.append_inj' heq hsuf).1
      have h3 := (List.append_inj' h2 (by rw [hk, hk'])).2
      exact hne h3.symm
  · intro s t hdec r
    simp [decrypt, hdec]
  · intro s t r hok
    unfold decrypt at hok
    split at hok
    · exact absurd hok (by simp)
    next d hdec =>
      split at hok
      · exact absurd hok (by simp)
      next =>
        split at hok
        · exact absurd hok (by simp)
        next iv hdt =>
          split at hok
          · exact absurd hok (by simp)
          next p hop =>
            have hpr : p = r := Except.ok.inj hok
            subst hpr
            have hd := ((gcmOpen_eq_some_iff key iv d p).mp hop).2
            exact ⟨iv, d, hdt, hdec, by rw [hd, gcmSeal]⟩

/-- Witness for C2 at a concrete key, nonce and plaintext: the round trip
succeeds and decryption under a wrong nonce dies fatally. -/
theorem c2_encrypt_decrypt_witness :
    (∃ c n, encrypt [104, 105] (List.replicate 32 7) (List.replicate 12 3) = .ok (c, n) ∧
      decrypt c n (List.replicate 32 7) = .ok [104, 105]) ∧
    fatalError (decrypt
      (base64Encode (gcmSeal (List.replicate 32 7) (List.replicate 12 3) [104, 105]))
      (base64Encode (List.replicate 12 4)) (List.replicate 32 7)) := by
  have h := c2_encrypt_decrypt (List.replicate 32 7) (List.replicate 12 3) [104, 105]
    (by decide) (by decide) (by decide) (by decide) (by decide) (by decide)
  exact ⟨h.1, h.2.2.1 (List.replicate 12 4) (by decide) (by decide) (by decide)⟩

end Grm
